import Mathlib

/-!
Shallow embedding of the clustering / hybrid-search core of the
twitter-bookmark-indexer repository (src/analysis/cluster.ts,
src/analysis/embeddings.ts and the search module), together with proofs
checking the natural-language specification against it.

Modelling conventions:
* JavaScript numbers are modelled as exact rationals (ℚ) wherever the code
  only performs field operations and comparisons; cosine similarity, which
  genuinely divides by square roots, is modelled over ℝ.
* `euclideanDistance` in the source returns `Math.sqrt(sum)`, but every use
  of it either compares two distances (square root is strictly monotone, so
  comparing the squared distances is equivalent) or re-squares the value
  (`minDist * minDist`, `dist * dist`), which recovers the sum of squares
  exactly.  We therefore embed the squared distance `distSq` and use it at
  each call site in the mathematically equal way.
* `Math.random()` is modelled as an explicit stream `rng : ℕ → ℚ` of draws
  consumed left to right; each randomness-consuming function takes the
  stream and the position of the next unconsumed draw and returns the new
  position.  The contract `0 ≤ rng i < 1` of `Math.random` becomes an
  explicit hypothesis where a theorem needs it.
* JavaScript array indexing `a[i]` (which yields `undefined` out of range)
  is modelled with `Option`-valued lookups.
-/

/-! ### Vector helpers (cluster.ts lines 7–30) -/

/-- Squared Euclidean distance.  Embeds `euclideanDistance` from cluster.ts
(the source returns `Math.sqrt(sum)`; all call sites only compare distances
or re-square them, so the squared distance is the faithful exact model).
The loop runs over the indices of the first argument, missing components
defaulting to 0 (`(a[i] ?? 0) - (b[i] ?? 0)`). -/
def distSq (a b : List ℚ) : ℚ :=
  (List.range a.length).foldl
    (fun sum i => sum + ((a[i]?.getD 0) - (b[i]?.getD 0)) ^ 2) 0

/-- Embeds `addVectors` from cluster.ts: componentwise sum over the first
argument's indices, missing components of `b` defaulting to 0. -/
def addVectors (a b : List ℚ) : List ℚ :=
  (List.range a.length).map (fun i => (a[i]?.getD 0) + (b[i]?.getD 0))

/-- Embeds `divideVector` from cluster.ts. -/
def divideVector (v : List ℚ) (scalar : ℚ) : List ℚ :=
  v.map (fun val => val / scalar)

/-- Embeds `zeroVector` from cluster.ts. -/
def zeroVector (dim : ℕ) : List ℚ :=
  List.replicate dim 0

/-- JavaScript array indexing with an (integer) index: `points[i]` is
`undefined` when `i` is negative or past the end. -/
def listGetIdx (l : List α) (i : ℤ) : Option α :=
  if 0 ≤ i then l[i.toNat]? else none

/-- The random stream: `rng i` models the value of the `i`-th call to
`Math.random()`. -/
abbrev Rng := ℕ → ℚ

/-! ### k-means++ initialization (cluster.ts lines 32–88) -/

/-- Minimum squared distance from a point to a list of centroids
(the `minDist` scan inside `initializeCentroids`; the source's
`minDist * minDist` recovers exactly this squared value).  The source
starts from `Infinity`; the empty-centroid case (which the source never
reaches once the first centroid has been pushed) is given the value 0. -/
def minDistSq (p : List ℚ) : List (List ℚ) → ℚ
  | [] => 0
  | c :: rest => rest.foldl (fun m c2 => min m (distSq p c2)) (distSq p c)

/-- The roulette-wheel scan of `initializeCentroids`: walk the distance
list subtracting each entry from `random`, returning the first index at
which the remainder drops to `≤ 0` (the source's `random -= dist;
if (random <= 0) ... break`). -/
def roulette : List ℚ → ℚ → Option ℕ
  | [], _ => none
  | d :: rest, random =>
      let r2 := random - d
      if r2 ≤ 0 then some 0 else (roulette rest r2).map (· + 1)

/-- One round of the k-means++ loop (`for (let c = 1; c < k; c++)` body in
`initializeCentroids`): compute squared distances to the nearest existing
centroid, draw one random value for the roulette pick, and, if the pick
failed to add a centroid, draw another for the uniform fallback. -/
def kppStep (rng : Rng) (points : List (List ℚ)) (state : List (List ℚ) × ℕ) :
    List (List ℚ) × ℕ :=
  let centroids := state.1
  let pos := state.2
  let distances := points.map (fun p => minDistSq p centroids)
  let totalDist := distances.sum
  let random := rng pos * totalDist
  let afterPick : List (List ℚ) :=
    match roulette distances random with
    | some i =>
        match points[i]? with
        | some p => centroids ++ [p]
        | none => centroids
    | none => centroids
  if afterPick.length = centroids.length then
    match listGetIdx points ⌊rng (pos + 1) * (points.length : ℚ)⌋ with
    | some p => (afterPick ++ [p], pos + 2)
    | none => (afterPick, pos + 2)
  else (afterPick, pos + 1)

/-- Embeds `initializeCentroids` from cluster.ts: first centroid chosen uniformly
(`Math.floor(Math.random() * n)`), then `k - 1` k-means++ rounds. -/
def initializeCentroids (rng : Rng) (pos : ℕ) (points : List (List ℚ)) (k : ℕ) :
    List (List ℚ) × ℕ :=
  let firstCentroids : List (List ℚ) :=
    match listGetIdx points ⌊rng pos * (points.length : ℚ)⌋ with
    | some p => [p]
    | none => []
  (List.range (k - 1)).foldl (fun st _ => kppStep rng points st)
    (firstCentroids, pos + 1)

/-! ### Assignment and centroid recomputation (cluster.ts lines 90–142) -/

/-- The scan inside `assignClusters` for one point: walk the centroids in
index order keeping the first strictly smaller distance (`minDist` starts
at `Infinity`, modelled by `none`; `cluster` starts at 0). -/
def assignPointAux (point : List ℚ) :
    List (List ℚ) → ℕ → Option ℚ → ℕ → ℕ
  | [], _, _, best => best
  | c :: rest, idx, minD, best =>
      let d := distSq point c
      match minD with
      | none => assignPointAux point rest (idx + 1) (some d) idx
      | some m =>
          if d < m then assignPointAux point rest (idx + 1) (some d) idx
          else assignPointAux point rest (idx + 1) (some m) best

/-- Cluster index of the nearest centroid for one point. -/
def assignPoint (point : List ℚ) (centroids : List (List ℚ)) : ℕ :=
  assignPointAux point centroids 0 none 0

/-- Embeds `assignClusters` from cluster.ts. -/
def assignClusters (points : List (List ℚ)) (centroids : List (List ℚ)) : List ℕ :=
  points.map (fun point => assignPoint point centroids)

/-- The accumulation loop of `computeCentroids`: running sums and counts
per cluster.  `sums[cluster]` for an out-of-range cluster id is
`undefined` in the source (`if (sum)` skips the point); `List.set` is a
no-op out of range, which matches. -/
def sumsCounts (points : List (List ℚ)) (assignments : List ℕ)
    (k dim : ℕ) : List (List ℚ) × List ℕ :=
  (assignments.zip points).foldl
    (fun sc ap =>
      match sc.1[ap.1]? with
      | some s =>
          (sc.1.set ap.1 (addVectors s ap.2),
           sc.2.set ap.1 ((sc.2[ap.1]?.getD 0) + 1))
      | none => sc)
    (List.replicate k (zeroVector dim), List.replicate k 0)

/-- The final `sums.map` of `computeCentroids`: an empty cluster is
reseeded with a uniformly random point (one draw from the stream), a
non-empty one becomes the mean of its members. -/
def centroidsFromSums (rng : Rng) (points : List (List ℚ)) (dim : ℕ) :
    List (List ℚ × ℕ) → ℕ → List (List ℚ) × ℕ
  | [], pos => ([], pos)
  | sc :: rest, pos =>
      if sc.2 = 0 then
        let seed : List ℚ :=
          match listGetIdx points ⌊rng pos * (points.length : ℚ)⌋ with
          | some p => p
          | none => zeroVector dim
        let tail := centroidsFromSums rng points dim rest (pos + 1)
        (seed :: tail.1, tail.2)
      else
        let tail := centroidsFromSums rng points dim rest pos
        (divideVector sc.1 (sc.2 : ℚ) :: tail.1, tail.2)

/-- Embeds `computeCentroids` from cluster.ts. -/
def computeCentroids (rng : Rng) (pos : ℕ) (points : List (List ℚ))
    (assignments : List ℕ) (k dim : ℕ) : List (List ℚ) × ℕ :=
  let sc := sumsCounts points assignments k dim
  centroidsFromSums rng points dim (sc.1.zip sc.2) pos

/-- Embeds the `ClusterResult` record from cluster.ts. -/
structure ClusterResult where
  assignments : List ℕ
  centroids : List (List ℚ)
  iterations : ℕ
deriving DecidableEq

/-! ### The Lloyd iteration and `kmeans` (cluster.ts lines 144–197) -/

/-- The `for (let iter = 0; iter < maxIterations; iter++)` loop of
`kmeans`.  `fuel` is the number of passes still allowed, so the pass being
executed has 0-based index `maxIterations - fuel` and sets
`iterations = maxIterations - fuel + 1` (the source's `iter + 1`).
`assignmentsEqual` is list equality. -/
def kmeansLoop (rng : Rng) (points : List (List ℚ)) (k dim maxIterations : ℕ) :
    ℕ → List (List ℚ) → List ℕ → ℕ → ℕ → ClusterResult × ℕ
  | 0, centroids, assignments, iterations, pos =>
      (⟨assignments, centroids, iterations⟩, pos)
  | fuel + 1, _, assignments, _, pos =>
      let nc := computeCentroids rng pos points assignments k dim
      let newAssignments := assignClusters points nc.1
      let iterations2 := maxIterations - fuel
      if assignments = newAssignments then
        (⟨newAssignments, nc.1, iterations2⟩, nc.2)
      else
        kmeansLoop rng points k dim maxIterations fuel nc.1 newAssignments
          iterations2 nc.2

/-- Embeds `kmeans` from cluster.ts (the spec's `cluster`).  Empty input returns
an empty result with 0 iterations; `k ≥ points.length` returns the
identity assignment with the points themselves as centroids and
1 iteration; otherwise k-means++ initialization followed by at most
`maxIterations` Lloyd passes. -/
def kmeans (rng : Rng) (pos : ℕ) (points : List (List ℚ)) (k : ℕ)
    (maxIterations : ℕ) : ClusterResult × ℕ :=
  if points = [] then (⟨[], [], 0⟩, pos)
  else if points.length ≤ k then
    (⟨List.range points.length, points, 1⟩, pos)
  else
    let dim := points.headI.length
    let init := initializeCentroids rng pos points k
    let assignments0 := assignClusters points init.1
    kmeansLoop rng points k dim maxIterations maxIterations init.1
      assignments0 1 init.2

/-! ### Elbow method (cluster.ts lines 199–241) -/

/-- The inertia computed inside `suggestK` for one clustering result:
sum over points of the squared distance to the assigned centroid (the
source computes `dist * dist` with `dist = euclideanDistance(point,
centroid)`, which is exactly the squared distance).  Points whose
assignment or assigned centroid is missing are skipped. -/
def clusterInertia (points : List (List ℚ)) (res : ClusterResult) : ℚ :=
  (points.zip res.assignments).foldl
    (fun acc pa =>
      match res.centroids[pa.2]? with
      | some c => acc + distSq pa.1 c
      | none => acc)
    0

/-- The inertia-gathering loop of `suggestK`: for each `k` from 1 to
`count`, run `kmeans` with `maxIterations = 50` (threading the random
stream from run to run) and record the inertia. -/
def suggestScan (rng : Rng) (points : List (List ℚ)) (pos : ℕ) (count : ℕ) :
    List ℚ × ℕ :=
  (List.range count).foldl
    (fun acc i =>
      let r := kmeans rng acc.2 points (i + 1) 50
      (acc.1 ++ [clusterInertia points r.1], r.2))
    ([], pos)

/-- Discrete second derivative of the inertia sequence at interior index
`i` (`inertias[i-1] - 2*inertias[i] + inertias[i+1]`, missing entries
defaulting to 0 as in the source's `?? 0`). -/
def secondDeriv (inertias : List ℚ) (i : ℕ) : ℚ :=
  (inertias[i - 1]?.getD 0) - 2 * (inertias[i]?.getD 0) + (inertias[i + 1]?.getD 0)

/-- One step of the elbow-selection loop of `suggestK`: the state is
`(bestK, maxSecondDerivative)` and is replaced by `(i + 1, sd)` exactly
when the second derivative at `i` strictly exceeds the running
maximum. -/
def elbowStep (inertias : List ℚ) (st : ℕ × ℚ) (i : ℕ) : ℕ × ℚ :=
  if st.2 < secondDeriv inertias i then (i + 1, secondDeriv inertias i) else st

/-- The elbow-selection loop of `suggestK`: scan interior indices
`i = 1 .. inertias.length - 2` keeping `bestK = i + 1` for the first
strictly largest positive second derivative; `bestK` starts at 2 and
`maxSecondDerivative` at 0. -/
def elbowPick (inertias : List ℚ) : ℕ :=
  ((List.range' 1 (inertias.length - 2)).foldl (elbowStep inertias)
    ((2, 0) : ℕ × ℚ)).1

/-- Embeds `suggestK` from cluster.ts: at most 3 points short-circuit to
`max(1, points.length)`; otherwise run the elbow scan over
`k = 1 .. min(maxK, ⌊points.length / 2⌋)`. -/
def suggestK (rng : Rng) (pos : ℕ) (points : List (List ℚ)) (maxK : ℕ) : ℕ :=
  if points.length ≤ 3 then max 1 points.length
  else
    let maxClusters := min maxK (points.length / 2)
    elbowPick (suggestScan rng points pos maxClusters).1

/-! ### Cluster labelling (cluster.ts lines 285–371) -/

/-- Embeds `findCentralText` from cluster.ts: among the points assigned to
`clusterId`, track the first strictly smaller squared distance to the
centroid (`bestDist` starts at `Infinity`, modelled by `none`), returning
the corresponding text (`texts[i] ?? null`). -/
def findCentralText (points : List (List ℚ)) (texts : List String)
    (assignments : List ℕ) (centroid : List ℚ) (clusterId : ℕ) : Option String :=
  ((List.range points.length).foldl
    (fun (st : Option ℚ × Option String) i =>
      if assignments[i]? = some clusterId then
        match points[i]? with
        | some p =>
            let d := distSq p centroid
            match st.1 with
            | none => (some d, texts[i]?)
            | some m => if d < m then (some d, texts[i]?) else st
        | none => st
      else st)
    (none, none)).2

/-- JavaScript truthiness of the `representativeText` variable: a string
option is truthy when it is present and non-empty. -/
def strTruthy : Option String → Bool
  | some t => t ≠ ""
  | none => false

/-- One scheme attempt of the URL matcher underlying
`replace(/https?:\\/\\/\\S+/g, "")`: if `l` starts with `scheme` followed by
at least one non-whitespace character, the length of the greedy match. -/
def trySchemeLen (scheme l : List Char) : Option ℕ :=
  if scheme <+: l then
    let span := (l.drop scheme.length).takeWhile (fun c => !c.isWhitespace)
    if span.length = 0 then none else some (scheme.length + span.length)
  else none

/-- The URL matcher: `http://` or `https://` (the regex alternative with
the optional `s`) followed by one or more non-whitespace characters. -/
def matchUrlLen (l : List Char) : Option ℕ :=
  match trySchemeLen "https://".data l with
  | some m => some m
  | none => trySchemeLen "http://".data l

/-- The scan of the global URL removal `replace(/https?:\\/\\/\\S+/g, "")`:
delete each leftmost match and resume after it.  The scan advances by at
least one character per step (a match is at least `http://x` long), so the
`fuel` parameter — initialized to the input length by `stripUrls` — never
runs out before the input is exhausted; it only makes the recursion
structural. -/
def stripUrlsF : ℕ → List Char → List Char
  | 0, l => l
  | _, [] => []
  | fuel + 1, c :: rest =>
      match matchUrlLen (c :: rest) with
      | some m => stripUrlsF fuel ((c :: rest).drop m)
      | none => c :: stripUrlsF fuel rest

/-- Embeds `replace(/https?:\\/\\/\\S+/g, "")`. -/
def stripUrls (l : List Char) : List Char :=
  stripUrlsF l.length l

/-- The scan of the whitespace collapsing `replace(/\\s+/g, " ")`: each
maximal whitespace run becomes a single space.  As in `stripUrlsF`, the
fuel (initialized to the input length) only makes the recursion
structural; each step consumes at least one character. -/
def collapseWsF : ℕ → List Char → List Char
  | 0, l => l
  | _, [] => []
  | fuel + 1, c :: rest =>
      if c.isWhitespace then
        ' ' :: collapseWsF fuel (rest.dropWhile Char.isWhitespace)
      else c :: collapseWsF fuel rest

/-- Embeds `replace(/\\s+/g, " ")`. -/
def collapseWs (l : List Char) : List Char :=
  collapseWsF l.length l

/-- Embeds `String.prototype.trim`: drop whitespace from both ends. -/
def trimChars (l : List Char) : List Char :=
  ((l.dropWhile Char.isWhitespace).reverse.dropWhile Char.isWhitespace).reverse

/-- The cleanup chain of `getClusterLabels`: remove URLs, collapse
whitespace, trim. -/
def cleanChars (s : String) : List Char :=
  trimChars (collapseWs (stripUrls s.data))

/-- The snippet step of `getClusterLabels`: truncate to 60 characters,
replacing the tail by an ellipsis marker when truncated
(`cleaned.slice(0, 57) + "..."`). -/
def snippetOf (cleaned : List Char) : String :=
  if 60 < cleaned.length then String.mk (cleaned.take 57 ++ "...".data)
  else String.mk cleaned

/-- Representative-text selection for cluster `c` in `getClusterLabels`:
centroid-based search when centroids are supplied and have an entry at
`c`, then (JavaScript `!representativeText`) fallback to the text of the
first index assigned to `c` when the result so far is `null` or the empty
string. -/
def pickRepresentative (points : List (List ℚ)) (texts : List String)
    (assignments : List ℕ) (centroids : Option (List (List ℚ)))
    (clusterIndices : List ℕ) (c : ℕ) : Option String :=
  let rep0 : Option String :=
    match centroids with
    | some cs =>
        match cs[c]? with
        | some centroid => findCentralText points texts assignments centroid c
        | none => none
    | none => none
  if strTruthy rep0 then rep0
  else
    match clusterIndices with
    | [] => rep0
    | i :: _ => texts[i]?

/-- The label pushed for a cluster with at least one member: clean and
truncate the representative text when it is truthy, otherwise (and when
the cleaned snippet is empty) the placeholder `Cluster ${c + 1}`. -/
def mkLabel (rep : Option String) (c : ℕ) : String :=
  match rep with
  | some t =>
      if t = "" then "Cluster " ++ toString (c + 1)
      else
        let snippet := snippetOf (cleanChars t)
        if snippet = "" then "Cluster " ++ toString (c + 1) else snippet
  | none => "Cluster " ++ toString (c + 1)

/-- The indices assigned to cluster `c`
(`assignments.map((a, i) => a === c ? i : -1).filter(i => i >= 0)`). -/
def clusterIndicesOf (assignments : List ℕ) (c : ℕ) : List ℕ :=
  assignments.enum.filterMap (fun ia => if ia.2 = c then some ia.1 else none)

/-- The body of the `for (let c = 0; c < k; c++)` loop of
`getClusterLabels`. -/
def labelFor (points : List (List ℚ)) (texts : List String)
    (assignments : List ℕ) (centroids : Option (List (List ℚ))) (c : ℕ) : String :=
  let clusterIndices := clusterIndicesOf assignments c
  if clusterIndices = [] then "Empty cluster"
  else mkLabel (pickRepresentative points texts assignments centroids clusterIndices c) c

/-- Embeds `getClusterLabels` from cluster.ts (the spec's `labelClusters`). -/
def getClusterLabels (points : List (List ℚ)) (texts : List String)
    (assignments : List ℕ) (k : ℕ) (centroids : Option (List (List ℚ))) :
    List String :=
  (List.range k).map (labelFor points texts assignments centroids)

/-! ### Search module (the repository's search source file) -/

/-- The bookmark fields relevant to ranking: the merge logic only inspects
`bookmark.id`. -/
structure Bookmark where
  id : ℕ
  content : String
deriving DecidableEq

/-- Embeds `SearchResult` from the search module, for the lexical and hybrid
rankers (whose score arithmetic is exact over ℚ). -/
structure SearchResult where
  bookmark : Bookmark
  score : ℚ
deriving DecidableEq

/-- Descending-by-score comparison used by `merged.sort((a, b) =>
b.score - a.score)`. -/
def scoreGe (a b : SearchResult) : Prop := b.score ≤ a.score

instance : DecidableRel scoreGe := fun a b => inferInstanceAs (Decidable (b.score ≤ a.score))

instance : IsTotal SearchResult scoreGe := ⟨fun a b => le_total b.score a.score⟩

instance : IsTrans SearchResult scoreGe := ⟨fun _ _ _ hab hbc => le_trans hbc hab⟩

/-- The stable descending sort `results.sort((a, b) => b.score - a.score)`
(ECMAScript sort is stable; insertion sort with a non-strict descending
relation is the stable descending sort). -/
def sortByScoreDesc (l : List SearchResult) : List SearchResult :=
  List.insertionSort scoreGe l

/-! #### Full-text search (`ftsSearch`) -/

/-- The characters removed by `query.replace(/['"*()]/g, " ")`. -/
def ftsSpecialChars : List Char := ['\'', '"', '*', '(', ')']

/-- The query escaping of `ftsSearch`: special FTS characters become
spaces, then the result is trimmed. -/
def ftsEscape (query : String) : String :=
  String.mk (trimChars (query.data.map
    (fun c => if c ∈ ftsSpecialChars then ' ' else c)))

/-- One row produced by the FTS5 query: the joined bookmark and the raw
`bm25` relevance value (which may be negative). -/
structure FtsRow where
  bookmark : Bookmark
  score : ℚ
deriving DecidableEq

/-- Embeds `ftsSearch` from the search module.  The external lexical index is a
parameter `dbIndex` mapping an escaped query to its result rows already
ordered by relevance; the SQL `LIMIT ?` is the `take`.  An empty escaped
query short-circuits to `[]` without consulting `dbIndex`.  Each returned
score is `Math.abs(row.score)` because bm25 returns negative scores. -/
def ftsSearch (dbIndex : String → List FtsRow) (query : String) (limit : ℕ) :
    List SearchResult :=
  let escapedQuery := ftsEscape query
  if escapedQuery = "" then []
  else
    ((dbIndex escapedQuery).take limit).map
      (fun row => ⟨row.bookmark, |row.score|⟩)

/-! #### Hybrid merge (`hybridSearch`) -/

/-- The first loop of `hybridSearch`: add every vector result, marking its
id as seen and boosting its score by 1.2 when some FTS result shares the
id (`ftsResults.find(...)` used as a truthiness test). -/
def hybridVectorPass (ftsResults : List SearchResult)
    (st : Finset ℕ × List SearchResult) (r : SearchResult) :
    Finset ℕ × List SearchResult :=
  (insert r.bookmark.id st.1,
   st.2 ++ [⟨r.bookmark,
     if (ftsResults.find? (fun f => f.bookmark.id = r.bookmark.id)).isSome
     then r.score * (6 / 5) else r.score⟩])

/-- The second loop of `hybridSearch`: add each FTS result whose id has
not been seen, at half weight. -/
def hybridFtsPass (st : Finset ℕ × List SearchResult) (r : SearchResult) :
    Finset ℕ × List SearchResult :=
  if r.bookmark.id ∈ st.1 then st
  else (insert r.bookmark.id st.1, st.2 ++ [⟨r.bookmark, r.score * (1 / 2)⟩])

/-- The merge step of `hybridSearch` as a function of the two result
lists (the source computes `vectorResults` and `ftsResults` and then runs
exactly these two loops, re-sorts descending and truncates). -/
def hybridMerge (vectorResults ftsResults : List SearchResult) (limit : ℕ) :
    List SearchResult :=
  let st1 := vectorResults.foldl (hybridVectorPass ftsResults) (∅, [])
  let st2 := ftsResults.foldl hybridFtsPass st1
  (sortByScoreDesc st2.2).take limit

/-- Embeds `hybridSearch` as a function of the vector results and the *outcome*
of the lexical search: `ftsSearch(query, limit).catch(() => [])` turns a
failed lexical search into the empty result list before the merge. -/
def hybridSearchOutcome (vectorResults : List SearchResult)
    (ftsOutcome : Except String (List SearchResult)) (limit : ℕ) :
    List SearchResult :=
  hybridMerge vectorResults
    (match ftsOutcome with
     | Except.ok l => l
     | Except.error _ => []) limit

/-! #### Cosine similarity and vector search (embeddings.ts lines 41–62,
search module lines 10–59) -/

/-- Dot product as computed by the loop in `cosineSimilarity`
(`a[i] ?? 0`, `b[i] ?? 0` over the indices of `a`). -/
def dotProd (a b : List ℝ) : ℝ :=
  (List.range a.length).foldl
    (fun acc i => acc + (a[i]?.getD 0) * (b[i]?.getD 0)) 0

/-- Sum of squared components (the loop's `normA` / `normB`
accumulators). -/
def normSqSum (a : List ℝ) : ℝ :=
  (List.range a.length).foldl (fun acc i => acc + (a[i]?.getD 0) ^ 2) 0

/-- The `magnitude` local of `cosineSimilarity`:
`Math.sqrt(normA) * Math.sqrt(normB)`. -/
noncomputable def magnitudeOf (a b : List ℝ) : ℝ :=
  Real.sqrt (normSqSum a) * Real.sqrt (normSqSum b)

/-- Embeds `cosineSimilarity` from embeddings.ts: throws on a length mismatch,
returns 0 when the magnitude product is 0, otherwise the dot product
divided by the magnitude product. -/
noncomputable def cosineSimilarity (a b : List ℝ) : Except String ℝ :=
  if a.length ≠ b.length then Except.error "Vectors must have same length"
  else
    let magnitude := magnitudeOf a b
    if magnitude = 0 then Except.ok 0
    else Except.ok (dotProd a b / magnitude)

/-- A search result of the vector ranker; its score is a real cosine
similarity. -/
structure RSearchResult where
  bookmark : Bookmark
  score : ℝ

/-- One row of the `vectorSearch` database query: a bookmark and its
stored embedding (`NULL`-able, re-checked by `if (!row.embedding)
continue`). -/
structure VRow where
  bookmark : Bookmark
  embedding : Option (List ℝ)

/-- Descending sort for real-scored results (`scored.sort((a, b) =>
b.score - a.score)`). -/
noncomputable def sortRealDesc (l : List RSearchResult) : List RSearchResult :=
  List.insertionSort (fun a b : RSearchResult => b.score ≤ a.score) l

/-- The scoring loop of `vectorSearch`: rows without an embedding are
skipped, `cosineSimilarity` is applied to the rest, and an exception
escapes the whole search. -/
noncomputable def vectorScoreRows (queryEmbedding : List ℝ) :
    List VRow → Except String (List RSearchResult)
  | [] => Except.ok []
  | row :: rest =>
      match row.embedding with
      | none => vectorScoreRows queryEmbedding rest
      | some e =>
          match cosineSimilarity queryEmbedding e with
          | Except.error msg => Except.error msg
          | Except.ok s =>
              match vectorScoreRows queryEmbedding rest with
              | Except.error msg => Except.error msg
              | Except.ok tail => Except.ok (⟨row.bookmark, s⟩ :: tail)

/-- Embeds `vectorSearch` from the search module, as a function of the query
embedding and the stored rows: score every row with an embedding, sort by
descending score, truncate to `limit`. -/
noncomputable def vectorSearch (queryEmbedding : List ℝ) (rows : List VRow)
    (limit : ℕ) : Except String (List RSearchResult) :=
  match vectorScoreRows queryEmbedding rows with
  | Except.error msg => Except.error msg
  | Except.ok scored => Except.ok ((sortRealDesc scored).take limit)

/-! ### Helper lemmas about the hybrid merge loops -/

/-- The element appended by the vector pass for one result (`1.2` boost
exactly when an FTS result shares the bookmark id). -/
def boostBy (ftsResults : List SearchResult) (r : SearchResult) : SearchResult :=
  ⟨r.bookmark,
   if (ftsResults.find? (fun f => f.bookmark.id = r.bookmark.id)).isSome
   then r.score * (6 / 5) else r.score⟩

/-- The element appended by the FTS pass for one unseen result. -/
def halfWeight (r : SearchResult) : SearchResult :=
  ⟨r.bookmark, r.score * (1 / 2)⟩

theorem hybridVectorPass_foldl (lr : List SearchResult) :
    ∀ (vr : List SearchResult) (s : Finset ℕ) (m : List SearchResult),
      (vr.foldl (hybridVectorPass lr) (s, m)).2 = m ++ vr.map (boostBy lr)
      ∧ ∀ x, x ∈ (vr.foldl (hybridVectorPass lr) (s, m)).1 ↔
          x ∈ s ∨ x ∈ vr.map (fun r => r.bookmark.id)
  | [], s, m => by simp
  | r :: rest, s, m => by
      have ih := hybridVectorPass_foldl lr rest
        (insert r.bookmark.id s) (m ++ [boostBy lr r])
      have step : hybridVectorPass lr (s, m) r =
          (insert r.bookmark.id s, m ++ [boostBy lr r]) := rfl
      rw [List.foldl_cons, step]
      constructor
      · rw [ih.1]
        simp
      · intro x
        rw [ih.2 x]
        simp only [Finset.mem_insert, List.map_cons, List.mem_cons]
        tauto

theorem hybridFtsPass_foldl :
    ∀ (lr : List SearchResult) (s : Finset ℕ) (m : List SearchResult),
      (lr.map (fun r => r.bookmark.id)).Nodup →
      (lr.foldl hybridFtsPass (s, m)).2 =
        m ++ (lr.filter (fun r => decide (r.bookmark.id ∉ s))).map halfWeight
  | [], s, m, _ => by simp
  | r :: rest, s, m, h => by
      have hnd : (rest.map (fun r => r.bookmark.id)).Nodup :=
        (List.nodup_cons.mp h).2
      have hhead : r.bookmark.id ∉ rest.map (fun r => r.bookmark.id) :=
        (List.nodup_cons.mp h).1
      by_cases hs : r.bookmark.id ∈ s
      · have step : hybridFtsPass (s, m) r = (s, m) := by
          simp [hybridFtsPass, hs]
        rw [List.foldl_cons, step, hybridFtsPass_foldl rest s m hnd]
        simp [List.filter_cons, hs]
      · have step : hybridFtsPass (s, m) r =
            (insert r.bookmark.id s, m ++ [halfWeight r]) := by
          simp [hybridFtsPass, hs, halfWeight]
        rw [List.foldl_cons, step,
          hybridFtsPass_foldl rest (insert r.bookmark.id s) (m ++ [halfWeight r]) hnd]
        have hfilter :
            rest.filter (fun x => decide (x.bookmark.id ∉ insert r.bookmark.id s)) =
            rest.filter (fun x => decide (x.bookmark.id ∉ s)) := by
          apply List.filter_congr
          intro x hx
          have hne : x.bookmark.id ≠ r.bookmark.id := by
            intro hcontra
            exact hhead (hcontra ▸ List.mem_map_of_mem (fun r => r.bookmark.id) hx)
          simp [Finset.mem_insert, hne]
        rw [hfilter]
        simp [List.filter_cons, hs]

/-- Membership form of the FTS pass, valid without any `Nodup` hypothesis:
everything in the accumulated list is either old or a half-weighted FTS
result. -/
theorem hybridFtsPass_foldl_mem :
    ∀ (lr : List SearchResult) (s : Finset ℕ) (m : List SearchResult),
      ∀ x ∈ (lr.foldl hybridFtsPass (s, m)).2,
        x ∈ m ∨ ∃ r ∈ lr, x = halfWeight r
  | [], _, _, x, hx => Or.inl hx
  | r :: rest, s, m, x, hx => by
      rw [List.foldl_cons] at hx
      by_cases hs : r.bookmark.id ∈ s
      · have step : hybridFtsPass (s, m) r = (s, m) := by simp [hybridFtsPass, hs]
        rw [step] at hx
        rcases hybridFtsPass_foldl_mem rest s m x hx with h | ⟨r2, hr2, hx2⟩
        · exact Or.inl h
        · exact Or.inr ⟨r2, List.mem_cons_of_mem _ hr2, hx2⟩
      · have step : hybridFtsPass (s, m) r =
            (insert r.bookmark.id s, m ++ [halfWeight r]) := by
          simp [hybridFtsPass, hs, halfWeight]
        rw [step] at hx
        rcases hybridFtsPass_foldl_mem rest _ _ x hx with h | ⟨r2, hr2, hx2⟩
        · rcases List.mem_append.mp h with h | h
          · exact Or.inl h
          · exact Or.inr ⟨r, List.mem_cons_self _ _, List.mem_singleton.mp h⟩
        · exact Or.inr ⟨r2, List.mem_cons_of_mem _ hr2, hx2⟩

/-! ### Claim C9: clustering on empty input -/

/-- C9: for the empty list of points and every random stream, position,
`k` and `maxIterations`, `cluster` returns the empty `ClusterResult`
(empty assignments, empty centroids) with `iterations = 0`; the function
is total, so no error is raised. -/
theorem kmeans_empty_input (rng : Rng) (pos : ℕ) (k maxIterations : ℕ) :
    kmeans rng pos [] k maxIterations = (⟨[], [], 0⟩, pos) := by
  simp [kmeans]

/-! ### Claim C2: `k ≥ points.length` gives singleton clusters -/

/-- C2: for every non-empty list of points and every `k ≥ points.length`,
`cluster` returns the identity assignment (`assignments[i] = i` for every
index), centroids that are the input points in order, and
`iterations = 1`, for every random stream. -/
theorem kmeans_identity_when_k_ge_points (rng : Rng) (pos : ℕ)
    (points : List (List ℚ)) (k maxIterations : ℕ)
    (hne : points ≠ []) (hk : points.length ≤ k) :
    kmeans rng pos points k maxIterations =
      (⟨List.range points.length, points, 1⟩, pos)
    ∧ ∀ i, i < points.length →
        (kmeans rng pos points k maxIterations).1.assignments[i]? = some i := by
  have h : kmeans rng pos points k maxIterations =
      (⟨List.range points.length, points, 1⟩, pos) := by
    simp [kmeans, hne, hk]
  refine ⟨h, fun i hi => ?_⟩
  rw [h]
  exact List.getElem?_range hi

/-- Witness for C2 at a concrete input. -/
theorem kmeans_identity_witness :
    kmeans (fun _ => 0) 0 [[1], [2]] 5 100 =
      (⟨[0, 1], [[1], [2]], 1⟩, 0) := by
  have h := kmeans_identity_when_k_ge_points (fun _ => 0) 0 [[1], [2]] 5 100
    (by decide) (by decide)
  have h2 := h.1
  rw [h2]
  rfl

/-! ### Claim C10: queries reduced to nothing by escaping -/

/-- C10: if every character of the query is one of the escaped FTS
characters `' " * ( )` or whitespace, the full-text search returns the
empty list for every lexical index (so the index is never consulted) and
every limit, without error. -/
theorem ftsSearch_blank_query_empty (dbIndex : String → List FtsRow)
    (query : String) (limit : ℕ)
    (h : ∀ c ∈ query.data, c ∈ ftsSpecialChars ∨ c.isWhitespace) :
    ftsSearch dbIndex query limit = [] := by
  have hall : ∀ c ∈ query.data.map
      (fun c => if c ∈ ftsSpecialChars then ' ' else c), c.isWhitespace := by
    intro c hc
    rcases List.mem_map.mp hc with ⟨c0, hc0, hmap⟩
    rcases h c0 hc0 with hs | hw
    · simp only [hs, if_pos] at hmap
      rw [← hmap]
      decide
    · by_cases hs : c0 ∈ ftsSpecialChars
      · simp only [hs, if_pos] at hmap
        rw [← hmap]
        decide
      · simp only [hs, if_neg, if_false] at hmap
        rw [← hmap]
        exact hw
  have hdrop : (query.data.map
      (fun c => if c ∈ ftsSpecialChars then ' ' else c)).dropWhile
        Char.isWhitespace = [] := by
    rw [List.dropWhile_eq_nil_iff]
    intro x hx
    exact hall x hx
  have hesc : ftsEscape query = "" := by
    unfold ftsEscape trimChars
    rw [hdrop]
    rfl
  simp [ftsSearch, hesc]

/-- Witness for C10 at a concrete query made only of escaped characters
and whitespace. -/
theorem ftsSearch_blank_query_witness :
    ftsSearch (fun _ => [⟨⟨4, "d"⟩, -3⟩]) "'( )*\"" 5 = [] :=
  ftsSearch_blank_query_empty (fun _ => [⟨⟨4, "d"⟩, -3⟩]) "'( )*\"" 5
    (by decide)

/-! ### Claim C6: lexical failure is fail-open -/

/-- C6: when the lexical ranker fails, hybrid search merges against the
empty lexical list and returns exactly the vector results, re-sorted by
descending score and truncated to the limit, with every score unchanged
(in particular no 1.2 boost is applied); the merge itself never fails. -/
theorem hybrid_failopen_vector_only (vectorResults : List SearchResult)
    (e : String) (limit : ℕ) :
    hybridSearchOutcome vectorResults (Except.error e) limit =
      (sortByScoreDesc vectorResults).take limit := by
  unfold hybridSearchOutcome hybridMerge
  have h1 := (hybridVectorPass_foldl [] vectorResults ∅ []).1
  have hboost : vectorResults.map (boostBy []) = vectorResults := by
    have hid : ∀ r : SearchResult, boostBy [] r = r := fun r => rfl
    calc vectorResults.map (boostBy [])
        = vectorResults.map id := List.map_congr_left (fun r _ => hid r)
      _ = vectorResults := List.map_id vectorResults
  simp only [List.foldl_nil]
  rw [h1, hboost, List.nil_append]

/-! ### Claim C1: the hybrid merge -/

/-- Spec wording, boost step: a vector result's score is multiplied by
1.2 exactly when its document id appears among the lexical results. -/
def specBoost (ftsResults : List SearchResult) (r : SearchResult) : SearchResult :=
  ⟨r.bookmark,
   if r.bookmark.id ∈ ftsResults.map (fun f => f.bookmark.id)
   then r.score * (6 / 5) else r.score⟩

/-- Spec wording, down-weight step: a lexical-only result is added with
its score multiplied by 0.5. -/
def specHalf (r : SearchResult) : SearchResult :=
  ⟨r.bookmark, r.score * (1 / 2)⟩

/-- Spec wording: a lexical result whose document id is not already
present from the vector pass. -/
def notInVector (vectorResults : List SearchResult) (r : SearchResult) : Bool :=
  decide (r.bookmark.id ∉ vectorResults.map (fun v => v.bookmark.id))

/-- The Hybrid Merger as the specification words it: every vector result
kept (boosted by 1.2 on lexical agreement), every lexical-only result
appended at half weight, the combination sorted by descending score and
truncated to the limit. -/
def hybridMergeSpec (vectorResults ftsResults : List SearchResult)
    (limit : ℕ) : List SearchResult :=
  (sortByScoreDesc (vectorResults.map (specBoost ftsResults)
    ++ (ftsResults.filter (notInVector vectorResults)).map specHalf)).take limit

theorem boostBy_eq_spec (lr : List SearchResult) (r : SearchResult) :
    boostBy lr r = specBoost lr r := by
  unfold boostBy specBoost
  congr 1
  have hiff : (lr.find? (fun f => decide (f.bookmark.id = r.bookmark.id))).isSome
      ↔ r.bookmark.id ∈ lr.map (fun f => f.bookmark.id) := by
    rw [List.find?_isSome, List.mem_map]
    constructor
    · rintro ⟨x, hx, hpx⟩
      exact ⟨x, hx, of_decide_eq_true hpx⟩
    · rintro ⟨x, hx, hpx⟩
      exact ⟨x, hx, decide_eq_true hpx⟩
  by_cases hmem : r.bookmark.id ∈ lr.map (fun f => f.bookmark.id)
  · rw [if_pos (hiff.mpr hmem), if_pos hmem]
  · rw [if_neg (fun hc => hmem (hiff.mp hc)), if_neg hmem]

theorem hybridMerge_eq_spec (vr lr : List SearchResult) (limit : ℕ)
    (hlr : (lr.map (fun r => r.bookmark.id)).Nodup) :
    hybridMerge vr lr limit = hybridMergeSpec vr lr limit := by
  unfold hybridMerge hybridMergeSpec
  have h1 := hybridVectorPass_foldl lr vr ∅ []
  obtain ⟨st1, hst1⟩ : ∃ st1, vr.foldl (hybridVectorPass lr) (∅, []) = st1 :=
    ⟨_, rfl⟩
  rw [hst1] at h1
  have h2 : (List.foldl hybridFtsPass st1 lr).2 =
      st1.2 ++ (lr.filter (fun r => decide (r.bookmark.id ∉ st1.1))).map halfWeight :=
    hybridFtsPass_foldl lr st1.1 st1.2 hlr
  have hmem : ∀ x, x ∈ st1.1 ↔ x ∈ vr.map (fun r => r.bookmark.id) := by
    intro x
    rw [h1.2 x]
    simp
  have hfilter : lr.filter (fun r => decide (r.bookmark.id ∉ st1.1)) =
      lr.filter (notInVector vr) := by
    apply List.filter_congr
    intro x _
    unfold notInVector
    simp only [decide_eq_decide]
    rw [hmem x.bookmark.id]
  have hboost : vr.map (boostBy lr) = vr.map (specBoost lr) :=
    List.map_congr_left (fun r _ => boostBy_eq_spec lr r)
  dsimp only
  rw [hst1, h2, hfilter, h1.1, hboost, List.nil_append]
  rfl

theorem sortTake_ids_nodup (l : List SearchResult) (lim : ℕ)
    (h : (l.map (fun r => r.bookmark.id)).Nodup) :
    (((sortByScoreDesc l).take lim).map (fun r => r.bookmark.id)).Nodup := by
  have hperm := (List.perm_insertionSort scoreGe l).map (fun r => r.bookmark.id)
  exact List.Nodup.sublist (List.Sublist.map _ (List.take_sublist _ _))
    ((List.Perm.nodup_iff hperm).mpr h)

theorem mergeSpec_ids_nodup (vr lr : List SearchResult)
    (hvr : (vr.map (fun r => r.bookmark.id)).Nodup)
    (hlr : (lr.map (fun r => r.bookmark.id)).Nodup) :
    ((vr.map (specBoost lr)
      ++ (lr.filter (notInVector vr)).map specHalf).map
        (fun r => r.bookmark.id)).Nodup := by
  rw [List.map_append, List.map_map, List.map_map]
  have hb : ((fun r : SearchResult => r.bookmark.id) ∘ specBoost lr) =
      (fun r : SearchResult => r.bookmark.id) := rfl
  have hh : ((fun r : SearchResult => r.bookmark.id) ∘ specHalf) =
      (fun r : SearchResult => r.bookmark.id) := rfl
  rw [hb, hh, List.nodup_append]
  refine ⟨hvr, ?_, ?_⟩
  · exact List.Nodup.sublist
      (List.Sublist.map _ (List.filter_sublist _)) hlr
  · intro a ha hb2
    rcases List.mem_map.mp hb2 with ⟨x, hx, hxa⟩
    have hpred := List.of_mem_filter hx
    unfold notInVector at hpred
    rw [decide_eq_true_iff] at hpred
    exact hpred (hxa ▸ ha)

/-- C1 (amended: input lists carry no duplicate document ids within each
list, as the two rankers produce): the hybrid merge keeps every vector
result boosted by 1.2 exactly when its id appears among the lexical
results, appends every lexical result whose id is not among the vector
results at half weight, and returns the deduplicated-by-id combination
sorted by descending score and truncated to the limit; on the spec's
concrete scenario the merged order is id 1 (score 1.08), id 2 (0.5),
id 3 (0.1). -/
theorem hybridMerge_characterization (vr lr : List SearchResult) (limit : ℕ)
    (hvr : (vr.map (fun r => r.bookmark.id)).Nodup)
    (hlr : (lr.map (fun r => r.bookmark.id)).Nodup) :
    hybridMerge vr lr limit = hybridMergeSpec vr lr limit
    ∧ ((hybridMerge vr lr limit).map (fun r => r.bookmark.id)).Nodup
    ∧ List.Sorted scoreGe (hybridMerge vr lr limit)
    ∧ hybridMerge [⟨⟨1, "a"⟩, 9/10⟩, ⟨⟨2, "b"⟩, 5/10⟩]
        [⟨⟨1, "a"⟩, 3/10⟩, ⟨⟨3, "c"⟩, 2/10⟩] 20
      = [⟨⟨1, "a"⟩, 27/25⟩, ⟨⟨2, "b"⟩, 1/2⟩, ⟨⟨3, "c"⟩, 1/10⟩] := by
  refine ⟨hybridMerge_eq_spec vr lr limit hlr, ?_, ?_, ?_⟩
  · rw [hybridMerge_eq_spec vr lr limit hlr]
    exact sortTake_ids_nodup _ limit (mergeSpec_ids_nodup vr lr hvr hlr)
  · unfold hybridMerge
    dsimp only
    exact List.Pairwise.sublist (List.take_sublist _ _)
      (List.sorted_insertionSort scoreGe _)
  · norm_num [hybridMerge, hybridVectorPass, hybridFtsPass, sortByScoreDesc,
      List.insertionSort, List.orderedInsert, scoreGe, List.find?]

/-- Witness for C1 at the spec's concrete scenario. -/
theorem hybridMerge_characterization_witness :
    hybridMerge [⟨⟨1, "a"⟩, 9/10⟩, ⟨⟨2, "b"⟩, 5/10⟩]
      [⟨⟨1, "a"⟩, 3/10⟩, ⟨⟨3, "c"⟩, 2/10⟩] 20
    = hybridMergeSpec [⟨⟨1, "a"⟩, 9/10⟩, ⟨⟨2, "b"⟩, 5/10⟩]
      [⟨⟨1, "a"⟩, 3/10⟩, ⟨⟨3, "c"⟩, 2/10⟩] 20 :=
  (hybridMerge_characterization
    [⟨⟨1, "a"⟩, 9/10⟩, ⟨⟨2, "b"⟩, 5/10⟩]
    [⟨⟨1, "a"⟩, 3/10⟩, ⟨⟨3, "c"⟩, 2/10⟩] 20 (by decide) (by decide)).1

/-- C1 counterexample: with a duplicate document id inside the vector
result list the merged list keeps both entries, so it is not
deduplicated by id as the claim states for arbitrary input lists. -/
theorem hybridMerge_duplicate_ids_counterexample :
    (hybridMerge [⟨⟨1, "a"⟩, 9/10⟩, ⟨⟨1, "a"⟩, 8/10⟩] [] 20).map
      (fun r => r.bookmark.id) = [1, 1]
    ∧ ¬ ((hybridMerge [⟨⟨1, "a"⟩, 9/10⟩, ⟨⟨1, "a"⟩, 8/10⟩] [] 20).map
      (fun r => r.bookmark.id)).Nodup := by
  have h : (hybridMerge [⟨⟨1, "a"⟩, 9/10⟩, ⟨⟨1, "a"⟩, 8/10⟩] [] 20).map
      (fun r => r.bookmark.id) = [1, 1] := by
    norm_num [hybridMerge, hybridVectorPass, hybridFtsPass, sortByScoreDesc,
      List.insertionSort, List.orderedInsert, scoreGe, List.find?]
  exact ⟨h, by rw [h]; decide⟩

/-! ### Claim C5: score signs -/

/-- C5 (amended): every lexical (full-text) search result has a
non-negative score — the absolute value taken of the bm25 value — and the
hybrid merge preserves non-negativity of its two input lists; vector
search scores are cosine similarities and can be negative, so the
original claim fails for the vector and hybrid rankers (see the
counterexample). -/
theorem lexical_and_merge_scores_nonneg (dbIndex : String → List FtsRow)
    (query : String) (limit : ℕ) (vr lr : List SearchResult) (lim : ℕ)
    (hvr : ∀ r ∈ vr, 0 ≤ r.score) (hlr : ∀ r ∈ lr, 0 ≤ r.score) :
    (∀ r ∈ ftsSearch dbIndex query limit, 0 ≤ r.score)
    ∧ (∀ r ∈ hybridMerge vr lr lim, 0 ≤ r.score) := by
  constructor
  · intro r hr
    unfold ftsSearch at hr
    by_cases hq : ftsEscape query = ""
    · simp [hq] at hr
    · simp only [hq, if_neg, if_false] at hr
      rcases List.mem_map.mp hr with ⟨row, _, hrow⟩
      rw [← hrow]
      exact abs_nonneg row.score
  · intro r hr
    unfold hybridMerge at hr
    dsimp only at hr
    have hr2 : r ∈ (lr.foldl hybridFtsPass
        (vr.foldl (hybridVectorPass lr) (∅, []))).2 := by
      have hsub := List.take_subset lim
        (sortByScoreDesc (lr.foldl hybridFtsPass
          (vr.foldl (hybridVectorPass lr) (∅, []))).2)
      have hmem := hsub hr
      exact (List.perm_insertionSort scoreGe _).mem_iff.mp hmem
    obtain ⟨st1, hst1⟩ : ∃ st1, vr.foldl (hybridVectorPass lr) (∅, []) = st1 :=
      ⟨_, rfl⟩
    rw [hst1] at hr2
    have hst1list : st1.2 = [] ++ vr.map (boostBy lr) := by
      rw [← hst1]
      exact (hybridVectorPass_foldl lr vr ∅ []).1
    have hmem2 : r ∈ st1.2 ∨ ∃ x ∈ lr, r = halfWeight x := by
      have := hybridFtsPass_foldl_mem lr st1.1 st1.2 r
      apply this
      have heta : (st1.1, st1.2) = st1 := rfl
      rw [heta]
      exact hr2
    rcases hmem2 with hin | ⟨x, hx, hxr⟩
    · rw [hst1list, List.nil_append] at hin
      rcases List.mem_map.mp hin with ⟨v, hv, hvr2⟩
      rw [← hvr2]
      unfold boostBy
      by_cases hfind : ((lr.find? (fun f =>
          decide (f.bookmark.id = v.bookmark.id))).isSome : Prop)
      · simp only [hfind, if_pos]
        have := hvr v hv
        positivity
      · simp only [hfind, if_neg, if_false]
        exact hvr v hv
    · rw [hxr]
      unfold halfWeight
      have := hlr x hx
      positivity

/-- Witness for C5 (amended) at concrete inputs. -/
theorem lexical_and_merge_scores_nonneg_witness :
    (∀ r ∈ ftsSearch (fun _ => [⟨⟨4, "d"⟩, -3⟩]) "hello" 5, 0 ≤ r.score)
    ∧ (∀ r ∈ hybridMerge [⟨⟨1, "a"⟩, 1⟩] [⟨⟨2, "b"⟩, 2⟩] 5, 0 ≤ r.score) :=
  lexical_and_merge_scores_nonneg (fun _ => [⟨⟨4, "d"⟩, -3⟩]) "hello" 5
    [⟨⟨1, "a"⟩, 1⟩] [⟨⟨2, "b"⟩, 2⟩] 5
    (by intro r hr; rw [List.mem_singleton.mp hr]; norm_num)
    (by intro r hr; rw [List.mem_singleton.mp hr]; norm_num)

/-- C5 counterexample: a vector search against a stored embedding
opposite to the query embedding returns a result whose score is −1,
which is negative — vector search results are not always
non-negative. -/
theorem vector_negative_score_counterexample :
    vectorSearch [(1 : ℝ)] [⟨⟨7, "t"⟩, some [-1]⟩] 20 =
      Except.ok [⟨⟨7, "t"⟩, -1⟩]
    ∧ ((-1 : ℝ) < 0) := by
  refine ⟨?_, by norm_num⟩
  have hcos : cosineSimilarity [(1 : ℝ)] [-1] = Except.ok (-1) := by
    unfold cosineSimilarity magnitudeOf dotProd normSqSum
    norm_num [List.range_succ, Real.sqrt_one]
  unfold vectorSearch vectorScoreRows
  dsimp only
  rw [hcos]
  unfold vectorScoreRows
  dsimp only
  norm_num [sortRealDesc, List.insertionSort, List.orderedInsert]

/-! ### Claim C7: cosine similarity -/

theorem foldl_add_sq_nonneg (a : List ℝ) :
    ∀ (l : List ℕ) (init : ℝ), 0 ≤ init →
      0 ≤ l.foldl (fun acc i => acc + (a[i]?.getD 0) ^ 2) init
  | [], _, h => h
  | _ :: rest, _, h =>
      foldl_add_sq_nonneg a rest _ (add_nonneg h (sq_nonneg _))

theorem normSqSum_nonneg (a : List ℝ) : 0 ≤ normSqSum a :=
  foldl_add_sq_nonneg a (List.range a.length) 0 le_rfl

/-- C7: `cosineSimilarity` errors exactly when the two vectors differ in
length; for same-length inputs it returns 0 when the magnitude product is
0 — which happens exactly when one of the two vectors has zero norm, so
the division is never by zero — and otherwise returns the dot product
divided by the product of the two magnitudes. -/
theorem cosineSimilarity_spec (a b : List ℝ) :
    ((∃ e, cosineSimilarity a b = Except.error e) ↔ a.length ≠ b.length)
    ∧ (a.length = b.length → magnitudeOf a b = 0 →
        cosineSimilarity a b = Except.ok 0)
    ∧ (a.length = b.length → magnitudeOf a b ≠ 0 →
        cosineSimilarity a b = Except.ok (dotProd a b / magnitudeOf a b))
    ∧ (magnitudeOf a b = 0 ↔ normSqSum a = 0 ∨ normSqSum b = 0) := by
  refine ⟨?_, ?_, ?_, ?_⟩
  · constructor
    · rintro ⟨e, he⟩
      unfold cosineSimilarity at he
      by_cases hlen : a.length = b.length
      · rw [if_neg (fun hc => hc hlen)] at he
        dsimp only at he
        split at he
        · exact absurd he (by simp)
        · exact absurd he (by simp)
      · exact hlen
    · intro hlen
      exact ⟨"Vectors must have same length", by
        unfold cosineSimilarity
        rw [if_pos hlen]⟩
  · intro hlen hmag
    unfold cosineSimilarity
    rw [if_neg (fun hc => hc hlen)]
    dsimp only
    rw [if_pos hmag]
  · intro hlen hmag
    unfold cosineSimilarity
    rw [if_neg (fun hc => hc hlen)]
    dsimp only
    rw [if_neg hmag]
  · unfold magnitudeOf
    rw [mul_eq_zero, Real.sqrt_eq_zero (normSqSum_nonneg a),
      Real.sqrt_eq_zero (normSqSum_nonneg b)]

/-- Witness for C7: a zero-magnitude pair returns similarity 0, and a
length mismatch errors. -/
theorem cosineSimilarity_spec_witness :
    cosineSimilarity [(1 : ℝ)] [0] = Except.ok 0
    ∧ (∃ e, cosineSimilarity [(1 : ℝ)] [0, 1] = Except.error e) := by
  constructor
  · apply (cosineSimilarity_spec [(1 : ℝ)] [0]).2.1 (by simp)
    unfold magnitudeOf normSqSum
    norm_num [List.range_succ, Real.sqrt_zero]
  · apply (cosineSimilarity_spec [(1 : ℝ)] [0, 1]).1.mpr
    simp

/-! ### Claim C8: cluster labels -/

theorem clusterPlaceholder_ne_empty (c : ℕ) :
    ("Cluster " ++ toString (c + 1)) ≠ "" := by
  intro h
  have hlen := congrArg String.length h
  rw [String.length_append] at hlen
  have h8 : ("Cluster " : String).length = 8 := by decide
  have h0 : ("" : String).length = 0 := by decide
  omega

theorem mkLabel_ne_empty (rep : Option String) (c : ℕ) : mkLabel rep c ≠ "" := by
  unfold mkLabel
  match rep with
  | none => exact clusterPlaceholder_ne_empty c
  | some t =>
      dsimp only
      split
      · exact clusterPlaceholder_ne_empty c
      · split
        · exact clusterPlaceholder_ne_empty c
        · assumption

/-- C8 (amended: the fallback to the first assigned document also fires
when the centroid-based representative's text is the empty string, since
the source tests the representative with JavaScript truthiness): the
labeler returns one label per cluster id in `[0, k)`; an unassigned
cluster is labelled "Empty cluster"; an assigned cluster is labelled by
cleaning and truncating the chosen representative text, with a
"Cluster N" placeholder when the cleaned text is empty; and every
returned label is a non-empty string. -/
theorem getClusterLabels_characterization (points : List (List ℚ))
    (texts : List String) (assignments : List ℕ) (k : ℕ)
    (centroids : Option (List (List ℚ))) :
    (getClusterLabels points texts assignments k centroids).length = k
    ∧ (∀ c, c < k → clusterIndicesOf assignments c = [] →
        (getClusterLabels points texts assignments k centroids)[c]? =
          some "Empty cluster")
    ∧ (∀ c, c < k → clusterIndicesOf assignments c ≠ [] →
        (getClusterLabels points texts assignments k centroids)[c]? =
          some (mkLabel (pickRepresentative points texts assignments centroids
            (clusterIndicesOf assignments c) c) c))
    ∧ (∀ l ∈ getClusterLabels points texts assignments k centroids, l ≠ "") := by
  refine ⟨by simp [getClusterLabels], ?_, ?_, ?_⟩
  · intro c hck hempty
    unfold getClusterLabels
    rw [List.getElem?_map, List.getElem?_range hck, Option.map_some']
    unfold labelFor
    dsimp only
    rw [if_pos hempty]
  · intro c hck hne
    unfold getClusterLabels
    rw [List.getElem?_map, List.getElem?_range hck, Option.map_some']
    unfold labelFor
    dsimp only
    rw [if_neg hne]
  · intro l hl
    unfold getClusterLabels at hl
    rcases List.mem_map.mp hl with ⟨c, _, hlc⟩
    rw [← hlc]
    unfold labelFor
    dsimp only
    split
    · decide
    · exact mkLabel_ne_empty _ c

/-- Witness for C8 at concrete inputs: one assigned cluster and one empty
cluster. -/
theorem getClusterLabels_characterization_witness :
    (getClusterLabels [[0], [5]] ["hello", ""] [0, 0] 2 none)[1]? =
      some "Empty cluster"
    ∧ ∀ l ∈ getClusterLabels [[0], [5]] ["hello", ""] [0, 0] 2 none, l ≠ "" := by
  have h := getClusterLabels_characterization [[0], [5]] ["hello", ""] [0, 0] 2 none
  exact ⟨h.2.1 1 (by decide) (by decide), h.2.2.2⟩

/-- The representative-selection rule exactly as the claim words it
(refinement reference, differing from the source only in not testing the
representative text for emptiness): fall back to the first assigned
document only when centroids are not supplied (or carry no entry for `c`)
or no representative is found. -/
def pickRepresentativeSpec (points : List (List ℚ)) (texts : List String)
    (assignments : List ℕ) (centroids : Option (List (List ℚ)))
    (clusterIndices : List ℕ) (c : ℕ) : Option String :=
  let rep0 : Option String :=
    match centroids with
    | some cs =>
        match cs[c]? with
        | some centroid => findCentralText points texts assignments centroid c
        | none => none
    | none => none
  match rep0 with
  | some t => some t
  | none =>
      match clusterIndices with
      | [] => none
      | i :: _ => texts[i]?

/-- The per-cluster label as the claim words it: clean and truncate the
representative text, with the numbered placeholder when the cleaned text
is empty or no representative exists. -/
def mkLabelSpec (rep : Option String) (c : ℕ) : String :=
  match rep with
  | some t =>
      let snippet := snippetOf (cleanChars t)
      if snippet = "" then "Cluster " ++ toString (c + 1) else snippet
  | none => "Cluster " ++ toString (c + 1)

/-- The labeler as the claim words it. -/
def getClusterLabelsSpec (points : List (List ℚ)) (texts : List String)
    (assignments : List ℕ) (k : ℕ) (centroids : Option (List (List ℚ))) :
    List String :=
  (List.range k).map (fun c =>
    let ci := clusterIndicesOf assignments c
    if ci = [] then "Empty cluster"
    else mkLabelSpec
      (pickRepresentativeSpec points texts assignments centroids ci c) c)

/-- C8 counterexample: the centroid-based representative of cluster 0 is
the document with text `""`; the claim's rule cleans that representative
to the empty string and so labels the cluster "Cluster 1", but the source
treats the empty text as falsy and falls back to the first assigned
document, labelling the cluster "x". -/
theorem labeler_empty_representative_counterexample :
    getClusterLabels [[0], [5]] ["x", ""] [0, 0] 1 (some [[5]]) = ["x"]
    ∧ getClusterLabelsSpec [[0], [5]] ["x", ""] [0, 0] 1 (some [[5]]) =
        ["Cluster 1"]
    ∧ ("x" : String) ≠ "Cluster 1" := by
  have hfind : findCentralText [[0], [5]] ["x", ""] [0, 0] [5] 0 = some "" := by
    norm_num [findCentralText, distSq, List.range_succ]
  have hidx : clusterIndicesOf [0, 0] 0 = [0, 1] := by decide
  have hpick : pickRepresentative [[0], [5]] ["x", ""] [0, 0] (some [[5]])
      [0, 1] 0 = some "x" := by
    unfold pickRepresentative
    dsimp only
    rw [List.getElem?_cons_zero]
    dsimp only
    rw [hfind]
    decide
  have hpickSpec : pickRepresentativeSpec [[0], [5]] ["x", ""] [0, 0]
      (some [[5]]) [0, 1] 0 = some "" := by
    unfold pickRepresentativeSpec
    dsimp only
    rw [List.getElem?_cons_zero]
    dsimp only
    rw [hfind]
  have hlabel : labelFor [[0], [5]] ["x", ""] [0, 0] (some [[5]]) 0 = "x" := by
    unfold labelFor
    dsimp only
    rw [hidx, if_neg (by decide : ¬ (([0, 1] : List ℕ) = [])), hpick]
    decide
  refine ⟨?_, ?_, by decide⟩
  · unfold getClusterLabels
    rw [show List.range 1 = [0] from rfl, List.map_cons, List.map_nil, hlabel]
  · unfold getClusterLabelsSpec
    rw [show List.range 1 = [0] from rfl, List.map_cons, List.map_nil]
    dsimp only
    rw [hidx, if_neg (by decide : ¬ (([0, 1] : List ℕ) = [])), hpickSpec]
    decide

/-! ### Claim C3: the elbow scan -/

/-- Invariant of the elbow-selection loop after processing the interior
indices in `P`: either the state is untouched (and no processed index has
a positive second derivative), or the state records the first processed
index attaining the strictly largest positive second derivative. -/
def elbowInv (inertias : List ℚ) (P : List ℕ) (st : ℕ × ℚ) : Prop :=
  (st = (2, 0) ∧ ∀ i ∈ P, secondDeriv inertias i ≤ 0)
  ∨ (∃ i ∈ P, st = (i + 1, secondDeriv inertias i)
      ∧ 0 < secondDeriv inertias i
      ∧ ∀ j ∈ P, secondDeriv inertias j ≤ secondDeriv inertias i)

theorem elbowStep_preserves (inertias : List ℚ) (P : List ℕ) (st : ℕ × ℚ)
    (i : ℕ) (h : elbowInv inertias P st) :
    elbowInv inertias (P ++ [i]) (elbowStep inertias st i) := by
  unfold elbowStep
  by_cases hlt : st.2 < secondDeriv inertias i
  · rw [if_pos hlt]
    rcases h with ⟨hst, hall⟩ | ⟨i0, hi0, hst, hpos, hmax⟩
    · have h0 : st.2 = 0 := by rw [hst]
      right
      refine ⟨i, by simp, rfl, by rw [h0] at hlt; exact hlt, ?_⟩
      intro j hj
      rcases List.mem_append.mp hj with hjP | hji
      · exact le_trans (hall j hjP) (le_of_lt (by rw [h0] at hlt; exact hlt))
      · rw [List.mem_singleton.mp hji]
    · have h2 : st.2 = secondDeriv inertias i0 := by rw [hst]
      right
      refine ⟨i, by simp, rfl, lt_trans hpos (by rw [h2] at hlt; exact hlt), ?_⟩
      intro j hj
      rcases List.mem_append.mp hj with hjP | hji
      · exact le_trans (hmax j hjP) (le_of_lt (by rw [h2] at hlt; exact hlt))
      · rw [List.mem_singleton.mp hji]
  · rw [if_neg hlt]
    rcases h with ⟨hst, hall⟩ | ⟨i0, hi0, hst, hpos, hmax⟩
    · left
      refine ⟨hst, ?_⟩
      intro j hj
      rcases List.mem_append.mp hj with hjP | hji
      · exact hall j hjP
      · rw [List.mem_singleton.mp hji]
        have h0 : st.2 = 0 := by rw [hst]
        rw [h0] at hlt
        exact le_of_not_lt hlt
    · right
      refine ⟨i0, List.mem_append_left _ hi0, hst, hpos, ?_⟩
      intro j hj
      rcases List.mem_append.mp hj with hjP | hji
      · exact hmax j hjP
      · rw [List.mem_singleton.mp hji]
        have h2 : st.2 = secondDeriv inertias i0 := by rw [hst]
        rw [h2] at hlt
        exact le_of_not_lt hlt

theorem elbowStep_foldl (inertias : List ℚ) :
    ∀ (l P : List ℕ) (st : ℕ × ℚ), elbowInv inertias P st →
      elbowInv inertias (P ++ l) (l.foldl (elbowStep inertias) st)
  | [], P, st, h => by simpa using h
  | i :: rest, P, st, h => by
      have hstep := elbowStep_preserves inertias P st i h
      have hrec := elbowStep_foldl inertias rest (P ++ [i])
        (elbowStep inertias st i) hstep
      rw [List.foldl_cons]
      have hP : P ++ [i] ++ rest = P ++ i :: rest := by simp
      rw [hP] at hrec
      exact hrec

/-- Characterization of the elbow selection: either no interior index has
a positive second derivative and the result defaults to 2, or the result
is `i + 1` for an interior index `i` whose second derivative is positive
and maximal. -/
theorem elbowPick_characterization (inertias : List ℚ) :
    (elbowPick inertias = 2 ∧ ∀ i, 1 ≤ i → i + 1 < inertias.length →
        secondDeriv inertias i ≤ 0)
    ∨ (∃ i, 1 ≤ i ∧ i + 1 < inertias.length ∧ elbowPick inertias = i + 1
        ∧ 0 < secondDeriv inertias i
        ∧ ∀ j, 1 ≤ j → j + 1 < inertias.length →
            secondDeriv inertias j ≤ secondDeriv inertias i) := by
  have h := elbowStep_foldl inertias (List.range' 1 (inertias.length - 2)) []
    (2, 0) (Or.inl ⟨rfl, by simp⟩)
  rw [List.nil_append] at h
  have hmem : ∀ i, i ∈ List.range' 1 (inertias.length - 2) ↔
      (1 ≤ i ∧ i + 1 < inertias.length) := by
    intro i
    rw [List.mem_range'_1]
    omega
  unfold elbowPick
  rcases h with ⟨hst, hall⟩ | ⟨i, hiP, hst, hpos, hmax⟩
  · left
    refine ⟨by rw [hst], ?_⟩
    intro i h1 h2
    exact hall i ((hmem i).mpr ⟨h1, h2⟩)
  · right
    refine ⟨i, ((hmem i).mp hiP).1, ((hmem i).mp hiP).2, by rw [hst], hpos, ?_⟩
    intro j h1 h2
    exact hmax j ((hmem j).mpr ⟨h1, h2⟩)

theorem suggestScan_succ (rng : Rng) (points : List (List ℚ)) (pos n : ℕ) :
    suggestScan rng points pos (n + 1) =
      ((suggestScan rng points pos n).1 ++
        [clusterInertia points
          (kmeans rng (suggestScan rng points pos n).2 points (n + 1) 50).1],
       (kmeans rng (suggestScan rng points pos n).2 points (n + 1) 50).2) := by
  unfold suggestScan
  rw [List.range_succ, List.foldl_append, List.foldl_cons, List.foldl_nil]

theorem suggestScan_length (rng : Rng) (points : List (List ℚ)) (pos : ℕ) :
    ∀ n, (suggestScan rng points pos n).1.length = n
  | 0 => rfl
  | n + 1 => by
      rw [suggestScan_succ]
      simp [suggestScan_length rng points pos n]

theorem suggestScan_get (rng : Rng) (points : List (List ℚ)) (pos : ℕ) :
    ∀ n j, j < n →
      (suggestScan rng points pos n).1[j]? =
        some (clusterInertia points
          (kmeans rng (suggestScan rng points pos j).2 points (j + 1) 50).1)
  | 0, _, hj => absurd hj (Nat.not_lt_zero _)
  | n + 1, j, hj => by
      rw [suggestScan_succ]
      dsimp only
      by_cases hjn : j < n
      · rw [List.getElem?_append_left
          (by rw [suggestScan_length rng points pos n]; exact hjn)]
        exact suggestScan_get rng points pos n j hjn
      · have hjeq : j = n := by omega
        subst hjeq
        rw [List.getElem?_append_right
          (by rw [suggestScan_length rng points pos j]),
          suggestScan_length rng points pos j]
        simp

/-- C3: `suggestK` returns `max(1, points.length)` for at most 3 points
(for every random stream, so without running the elbow scan); otherwise it
runs the cluster engine with `maxIterations = 50` for each
`k = 1 .. min(maxK, ⌊points.length / 2⌋)` (threading the random stream),
records each run's inertia, and applies the elbow selection, which picks
`i + 1` for the interior index `i` with the largest positive second
derivative (first such index on ties) and defaults to 2 when no interior
index has a positive second derivative. -/
theorem suggestK_elbow_characterization (rng : Rng) (pos : ℕ)
    (points : List (List ℚ)) (maxK : ℕ) :
    (points.length ≤ 3 → suggestK rng pos points maxK = max 1 points.length)
    ∧ (3 < points.length →
        suggestK rng pos points maxK =
          elbowPick (suggestScan rng points pos (min maxK (points.length / 2))).1)
    ∧ ((suggestScan rng points pos (min maxK (points.length / 2))).1.length =
        min maxK (points.length / 2))
    ∧ (∀ j, j < min maxK (points.length / 2) →
        (suggestScan rng points pos (min maxK (points.length / 2))).1[j]? =
          some (clusterInertia points
            (kmeans rng (suggestScan rng points pos j).2 points (j + 1) 50).1))
    ∧ ((elbowPick (suggestScan rng points pos (min maxK (points.length / 2))).1 = 2
        ∧ ∀ i, 1 ≤ i → i + 1 < min maxK (points.length / 2) →
            secondDeriv (suggestScan rng points pos
              (min maxK (points.length / 2))).1 i ≤ 0)
      ∨ (∃ i, 1 ≤ i ∧ i + 1 < min maxK (points.length / 2)
          ∧ elbowPick (suggestScan rng points pos (min maxK (points.length / 2))).1
              = i + 1
          ∧ 0 < secondDeriv (suggestScan rng points pos
              (min maxK (points.length / 2))).1 i
          ∧ ∀ j, 1 ≤ j → j + 1 < min maxK (points.length / 2) →
              secondDeriv (suggestScan rng points pos
                  (min maxK (points.length / 2))).1 j ≤
                secondDeriv (suggestScan rng points pos
                  (min maxK (points.length / 2))).1 i)) := by
  refine ⟨?_, ?_, suggestScan_length rng points pos _, ?_, ?_⟩
  · intro h
    unfold suggestK
    rw [if_pos h]
  · intro h
    unfold suggestK
    rw [if_neg (not_le.mpr h)]
  · intro j hj
    exact suggestScan_get rng points pos _ j hj
  · have h := elbowPick_characterization
      (suggestScan rng points pos (min maxK (points.length / 2))).1
    rw [suggestScan_length rng points pos] at h
    exact h

/-- Witness for C3 at a concrete short input: two points short-circuit to
`max 1 2 = 2`. -/
theorem suggestK_elbow_witness :
    suggestK (fun _ => 0) 0 [[0], [1]] 10 = 2 := by
  have h := (suggestK_elbow_characterization (fun _ => 0) 0 [[0], [1]] 10).1
    (by decide)
  exact h

/-! ### Claim C4: shape invariants of `kmeans` -/

theorem assignPointAux_bound (point : List ℚ) :
    ∀ (cs : List (List ℚ)) (idx : ℕ) (minD : Option ℚ) (best : ℕ),
      assignPointAux point cs idx minD best = best
      ∨ ∃ j, j < cs.length ∧ assignPointAux point cs idx minD best = idx + j
  | [], _, _, _ => Or.inl rfl
  | c :: rest, idx, minD, best => by
      unfold assignPointAux
      match minD with
      | none =>
          dsimp only
          rcases assignPointAux_bound point rest (idx + 1)
            (some (distSq point c)) idx with h | ⟨j, hj, hjeq⟩
          · exact Or.inr ⟨0, by simp, by omega⟩
          · exact Or.inr ⟨j + 1, by simp; omega, by omega⟩
      | some m =>
          dsimp only
          by_cases hlt : distSq point c < m
          · rw [if_pos hlt]
            rcases assignPointAux_bound point rest (idx + 1)
              (some (distSq point c)) idx with h | ⟨j, hj, hjeq⟩
            · exact Or.inr ⟨0, by simp, by omega⟩
            · exact Or.inr ⟨j + 1, by simp; omega, by omega⟩
          · rw [if_neg hlt]
            rcases assignPointAux_bound point rest (idx + 1)
              (some m) best with h | ⟨j, hj, hjeq⟩
            · exact Or.inl h
            · exact Or.inr ⟨j + 1, by simp; omega, by omega⟩

theorem assignPoint_lt (point : List ℚ) (cs : List (List ℚ)) (h : cs ≠ []) :
    assignPoint point cs < cs.length := by
  unfold assignPoint
  rcases assignPointAux_bound point cs 0 none 0 with h0 | ⟨j, hj, hjeq⟩
  · rw [h0]
    cases cs with
    | nil => exact absurd rfl h
    | cons c rest => simp
  · rw [hjeq]
    omega

theorem assignClusters_length (points cs : List (List ℚ)) :
    (assignClusters points cs).length = points.length := by
  simp [assignClusters]

theorem assignClusters_lt (points cs : List (List ℚ)) (h : cs ≠ []) :
    ∀ a ∈ assignClusters points cs, a < cs.length := by
  intro a ha
  rcases List.mem_map.mp ha with ⟨p, _, hpa⟩
  rw [← hpa]
  exact assignPoint_lt p cs h

theorem centroidsFromSums_length (rng : Rng) (points : List (List ℚ)) (dim : ℕ) :
    ∀ (l : List (List ℚ × ℕ)) (pos : ℕ),
      (centroidsFromSums rng points dim l pos).1.length = l.length
  | [], _ => rfl
  | sc :: rest, pos => by
      unfold centroidsFromSums
      by_cases h : sc.2 = 0
      · rw [if_pos h]
        dsimp only
        rw [List.length_cons, centroidsFromSums_length rng points dim rest (pos + 1)]
        rfl
      · rw [if_neg h]
        dsimp only
        rw [List.length_cons, centroidsFromSums_length rng points dim rest pos]
        rfl

theorem sumsCounts_lengths (points : List (List ℚ)) (assignments : List ℕ)
    (k dim : ℕ) :
    (sumsCounts points assignments k dim).1.length = k
    ∧ (sumsCounts points assignments k dim).2.length = k := by
  unfold sumsCounts
  have hgen : ∀ (l : List (ℕ × List ℚ)) (sc : List (List ℚ) × List ℕ),
      sc.1.length = k → sc.2.length = k →
      ((l.foldl (fun sc ap =>
        match sc.1[ap.1]? with
        | some s =>
            (sc.1.set ap.1 (addVectors s ap.2),
             sc.2.set ap.1 ((sc.2[ap.1]?.getD 0) + 1))
        | none => sc) sc).1.length = k
      ∧ (l.foldl (fun sc ap =>
        match sc.1[ap.1]? with
        | some s =>
            (sc.1.set ap.1 (addVectors s ap.2),
             sc.2.set ap.1 ((sc.2[ap.1]?.getD 0) + 1))
        | none => sc) sc).2.length = k) := by
    intro l
    induction l with
    | nil => intro sc h1 h2; exact ⟨h1, h2⟩
    | cons ap rest ih =>
        intro sc h1 h2
        rw [List.foldl_cons]
        match hget : sc.1[ap.1]? with
        | some s =>
            apply ih
            · rw [List.length_set]; exact h1
            · rw [List.length_set]; exact h2
        | none => exact ih sc h1 h2
  exact hgen (assignments.zip points) _ (by simp) (by simp)

theorem computeCentroids_length (rng : Rng) (pos : ℕ) (points : List (List ℚ))
    (assignments : List ℕ) (k dim : ℕ) :
    (computeCentroids rng pos points assignments k dim).1.length = k := by
  unfold computeCentroids
  rw [centroidsFromSums_length, List.length_zip,
    (sumsCounts_lengths points assignments k dim).1,
    (sumsCounts_lengths points assignments k dim).2, min_self]

theorem kmeansLoop_inv (rng : Rng) (points : List (List ℚ)) (k dim M : ℕ)
    (hk : 1 ≤ k) :
    ∀ (fuel : ℕ) (cs : List (List ℚ)) (asg : List ℕ) (its pos : ℕ),
      cs.length = k → asg.length = points.length → (∀ a ∈ asg, a < k) →
      ((kmeansLoop rng points k dim M fuel cs asg its pos).1.assignments.length
          = points.length
       ∧ (∀ a ∈ (kmeansLoop rng points k dim M fuel cs asg its pos).1.assignments,
            a < k)
       ∧ (kmeansLoop rng points k dim M fuel cs asg its pos).1.centroids.length
          = k)
  | 0, cs, asg, its, pos, hcs, hlen, hbound => ⟨hlen, hbound, hcs⟩
  | fuel + 1, cs, asg, its, pos, hcs, hlen, hbound => by
      unfold kmeansLoop
      have hnc : (computeCentroids rng pos points asg k dim).1.length = k :=
        computeCentroids_length rng pos points asg k dim
      have hne : (computeCentroids rng pos points asg k dim).1 ≠ [] := by
        intro hnil
        rw [hnil] at hnc
        simp at hnc
        omega
    
      have hlt := assignClusters_lt points
        (computeCentroids rng pos points asg k dim).1 hne
      rw [hnc] at hlt
      by_cases heq : asg = assignClusters points
          (computeCentroids rng pos points asg k dim).1
      · rw [if_pos heq]
        exact ⟨assignClusters_length _ _, hlt, hnc⟩
      · rw [if_neg heq]
        exact kmeansLoop_inv rng points k dim M hk fuel _ _ _ _
          hnc (assignClusters_length _ _) hlt

theorem roulette_lt :
    ∀ (l : List ℚ) (r : ℚ) (i : ℕ), roulette l r = some i → i < l.length
  | [], r, i, h => by simp [roulette] at h
  | d :: rest, r, i, h => by
      unfold roulette at h
      dsimp only at h
      split at h
      · rw [Option.some_inj] at h
        rw [← h, List.length_cons]
        omega
      · rcases Option.map_eq_some'.mp h with ⟨j, hj, hji⟩
        have h2 := roulette_lt rest (r - d) j hj
        rw [← hji, List.length_cons]
        omega

theorem listGetIdx_floor_isSome (l : List (List ℚ)) (q : ℚ)
    (h0 : 0 ≤ q) (h1 : q < 1) (hne : l ≠ []) :
    ∃ p, listGetIdx l ⌊q * (l.length : ℚ)⌋ = some p := by
  have hn : 0 < l.length := List.length_pos.mpr hne
  have hnn : (0 : ℚ) ≤ q * (l.length : ℚ) :=
    mul_nonneg h0 (by positivity)
  have hfl0 : 0 ≤ ⌊q * (l.length : ℚ)⌋ := Int.floor_nonneg.mpr hnn
  have hlt : q * (l.length : ℚ) < (l.length : ℚ) := by
    have hpos : (0 : ℚ) < (l.length : ℚ) := by
      exact_mod_cast hn
    calc q * (l.length : ℚ) < 1 * (l.length : ℚ) := by
          exact mul_lt_mul_of_pos_right h1 hpos
      _ = (l.length : ℚ) := one_mul _
  have hfl : ⌊q * (l.length : ℚ)⌋ < (l.length : ℤ) := by
    rw [Int.floor_lt]
    exact_mod_cast hlt
  have htoNat : (⌊q * (l.length : ℚ)⌋).toNat < l.length := by omega
  refine ⟨l.get ⟨(⌊q * (l.length : ℚ)⌋).toNat, htoNat⟩, ?_⟩
  unfold listGetIdx
  rw [if_pos hfl0]
  rw [List.getElem?_eq_getElem htoNat]
  rfl

theorem kppStep_length (rng : Rng) (points : List (List ℚ))
    (hne : points ≠ []) (hr : ∀ i, 0 ≤ rng i ∧ rng i < 1)
    (st : List (List ℚ) × ℕ) :
    (kppStep rng points st).1.length = st.1.length + 1 := by
  unfold kppStep
  dsimp only
  match hpick : roulette (points.map (fun p => minDistSq p st.1))
      (rng st.2 * (points.map (fun p => minDistSq p st.1)).sum) with
  | some i =>
      have hi : i < points.length := by
        have h2 := roulette_lt _ _ _ hpick
        rw [List.length_map] at h2
        exact h2
      have hget : points[i]? = some points[i] := List.getElem?_eq_getElem hi
      dsimp only
      rw [hget]
      dsimp only
      rw [if_neg (by simp)]
      simp
  | none =>
      dsimp only
      rw [if_pos rfl]
      obtain ⟨p, hp⟩ := listGetIdx_floor_isSome points (rng (st.2 + 1))
        (hr (st.2 + 1)).1 (hr (st.2 + 1)).2 hne
      rw [hp]
      simp

theorem initializeCentroids_length (rng : Rng) (pos : ℕ)
    (points : List (List ℚ)) (k : ℕ) (hne : points ≠ [])
    (hr : ∀ i, 0 ≤ rng i ∧ rng i < 1) (hk : 1 ≤ k) :
    (initializeCentroids rng pos points k).1.length = k := by
  unfold initializeCentroids
  obtain ⟨p, hp⟩ := listGetIdx_floor_isSome points (rng pos)
    (hr pos).1 (hr pos).2 hne
  rw [hp]
  have hfold : ∀ (m : ℕ) (st : List (List ℚ) × ℕ),
      ((List.range m).foldl (fun st _ => kppStep rng points st) st).1.length =
        st.1.length + m := by
    intro m
    induction m with
    | zero => intro st; simp
    | succ m ih =>
        intro st
        rw [List.range_succ, List.foldl_append, List.foldl_cons, List.foldl_nil,
          kppStep_length rng points hne hr, ih]
        omega
  rw [hfold (k - 1) ([p], pos + 1)]
  simp
  omega

/-- C4 (amended: `k ≥ 1`, random draws in `[0, 1)` as `Math.random`
guarantees, and the centroid count is `min k N` rather than `k` — for
`k > N` the singleton-cluster branch returns only `N` centroids): for
every non-empty list of `N` points, `cluster` returns assignments of
length `N` (one per document index, in order), every assignment value in
`[0, k)`, and exactly `min k N` centroids. -/
theorem kmeans_result_invariants (rng : Rng) (pos : ℕ)
    (points : List (List ℚ)) (k maxIterations : ℕ)
    (hr : ∀ i, 0 ≤ rng i ∧ rng i < 1) (hne : points ≠ []) (hk : 1 ≤ k) :
    (kmeans rng pos points k maxIterations).1.assignments.length = points.length
    ∧ (∀ a ∈ (kmeans rng pos points k maxIterations).1.assignments, a < k)
    ∧ (kmeans rng pos points k maxIterations).1.centroids.length =
        min k points.length := by
  unfold kmeans
  rw [if_neg hne]
  by_cases hkN : points.length ≤ k
  · rw [if_pos hkN]
    refine ⟨by simp, ?_, ?_⟩
    · intro a ha
      simp only [List.mem_range] at ha
      omega
    · simp only
      rw [Nat.min_eq_right hkN]
  · rw [if_neg hkN]
    dsimp only
    have hinit : (initializeCentroids rng pos points k).1.length = k :=
      initializeCentroids_length rng pos points k hne hr hk
    have hcne : (initializeCentroids rng pos points k).1 ≠ [] := by
      intro hnil
      rw [hnil] at hinit
      simp at hinit
      omega
    have hbound := assignClusters_lt points
      (initializeCentroids rng pos points k).1 hcne
    rw [hinit] at hbound
    have h := kmeansLoop_inv rng points k points.headI.length maxIterations hk
      maxIterations _ _ 1 (initializeCentroids rng pos points k).2
      hinit (assignClusters_length _ _) hbound
    refine ⟨h.1, h.2.1, ?_⟩
    rw [h.2.2, Nat.min_eq_left (by omega)]

/-- Witness for C4 (amended) at a concrete input using the
singleton-cluster branch. -/
theorem kmeans_result_invariants_witness :
    (kmeans (fun _ => 0) 0 [[0], [1]] 5 100).1.assignments.length = 2
    ∧ (∀ a ∈ (kmeans (fun _ => 0) 0 [[0], [1]] 5 100).1.assignments, a < 5)
    ∧ (kmeans (fun _ => 0) 0 [[0], [1]] 5 100).1.centroids.length = min 5 2 :=
  kmeans_result_invariants (fun _ => 0) 0 [[0], [1]] 5 100
    (fun _ => ⟨le_refl 0, by norm_num⟩) (by decide) (by decide)

/-- C4 counterexample: with `k = 2` and a single point, the returned
centroid list has length 1, so cluster id 1 ∈ [0, 2) has no centroid —
the claim fails for `k` greater than the number of points. -/
theorem kmeans_centroid_count_counterexample :
    (kmeans (fun _ => 0) 0 [[0]] 2 100).1.centroids.length = 1
    ∧ (1 : ℕ) ≠ 2 := by
  constructor
  · have h : kmeans (fun _ => 0) 0 [[(0 : ℚ)]] 2 100 =
        (⟨List.range 1, [[0]], 1⟩, 0) := by
      unfold kmeans
      rw [if_neg (by simp), if_pos (by simp)]
      rfl
    rw [h]
    rfl
  · decide
